import Mathlib

/-!
Verification of the syscare daemon patch-lifecycle engine.

This file gives a shallow embedding of the patch manager
(`src/daemon/src/patch/manager/mod.rs`), the transaction engine
(`src/daemon/src/patch/transaction.rs`), the user patch driver
(`src/syscared/src/patch/driver/upatch/mod.rs`), the kernel patch driver
(`src/syscared/src/patch/manager/driver/kpatch/mod.rs`) and the
kernel patch ELF resolver
(`src/syscared/src/patch/manager/entity/kernel_patch_ext.rs`),
and proves or refutes the frozen claims about them.

Effectful Rust code is embedded as explicit state passing: every manager
operation returns its `Except` result together with the successor entry map
and a trace of the observable side effects (driver primitive invocations and
`do_status_transition` entries).  `anyhow` error chains are embedded as
`List String`, most recent context first.
-/

namespace Syscare

/-- Modelled from the spec: the `syscare_abi` crate defining `PatchStatus` is
not part of the source snapshot.  Spec section 3: totally ordered enum
`Unknown < NotApplied < Deactived < Actived < Accepted`. -/
inductive PatchStatus where
  | Unknown
  | NotApplied
  | Deactived
  | Actived
  | Accepted
deriving DecidableEq, Repr

/-- Rank realising the spec's total order on `PatchStatus`
(`Unknown < NotApplied < Deactived < Actived < Accepted`),
used by `restore_patch_status` for its ascending sort. -/
def statusRank : PatchStatus → Nat
  | .Unknown => 0
  | .NotApplied => 1
  | .Deactived => 2
  | .Actived => 3
  | .Accepted => 4

/-- Modelled from the spec: the daemon's `patch.rs` (the `Patch` record) is not
part of the source snapshot.  Spec section 3: a patch has a stable UUID and
immutable `entity_name`, `patch_name`, `target_name` attributes (the
kind-specific extension is embedded separately where a claim needs it). -/
structure Patch where
  uuid : String
  entity_name : String
  patch_name : String
  target_name : String
deriving DecidableEq, Repr

/-- `PatchEntry` from `src/daemon/src/patch/manager/mod.rs`: the mapping value
stored by the manager, a shared patch record plus its cached status. -/
structure PatchEntry where
  patch : Patch
  status : PatchStatus
deriving DecidableEq, Repr

/-- The manager's `entry_map : IndexMap<String, PatchEntry>`: an
insertion-ordered association list keyed by patch UUID. -/
abbrev EntryMap := List (String × PatchEntry)

/-- An `anyhow` error chain: most recently attached context first,
root cause last. -/
abbrev Err := List String

/-- Abstraction of the two patch drivers behind the `PatchDriver` trait
(`DRIVER_MAP` dispatch): each primitive is an oracle returning success or an
error chain.  The manager-level claims hold for every driver behaviour. -/
structure Driver where
  status : Patch → Except Err PatchStatus
  check : Patch → Except Err Unit
  apply : Patch → Except Err Unit
  remove : Patch → Except Err Unit
  active : Patch → Except Err Unit
  deactive : Patch → Except Err Unit

/-- Observable side effects of a manager operation: invocations of driver
primitives, and entries into `do_status_transition`. -/
inductive Event where
  | driverStatus (uuid : String)
  | driverCheck (uuid : String)
  | driverApply (uuid : String)
  | driverRemove (uuid : String)
  | driverActive (uuid : String)
  | driverDeactive (uuid : String)
  | transition (uuid : String) (target : PatchStatus)
deriving DecidableEq, Repr

/-- `true` for the events that are calls into a patch driver. -/
def Event.isDriver : Event → Bool
  | .transition _ _ => false
  | _ => true

/-- `true` for `do_status_transition` entry events. -/
def Event.isTransition : Event → Bool
  | .transition _ _ => true
  | _ => false

/-- Result of an effectful manager operation: `Except` value, successor entry
map, and the chronological trace of observable side effects. -/
structure MResult (α : Type) where
  res : Except Err α
  state : EntryMap
  trace : List Event
deriving Repr

/-- Update the status of the entry keyed `u` (helper for
`PatchManager::set_patch_status`'s `get_mut ... .status = value`). -/
def setStatus (m : EntryMap) (u : String) (v : PatchStatus) : EntryMap :=
  m.map (fun e => if e.1 = u then (e.1, { e.2 with status := v }) else e)

/-- `PatchManager::set_patch_status` (mod.rs lines 167-178): rejects
`Unknown`, errors when the uuid is absent, otherwise updates the cached
status. -/
def set_patch_status (m : EntryMap) (p : Patch) (v : PatchStatus) :
    Except Err Unit × EntryMap :=
  if v = PatchStatus.Unknown then
    (.error ["Cannot set patch status to Unknown"], m)
  else
    match List.lookup p.uuid m with
    | none => (.error ["Cannot find patch"], m)
    | some _ => (.ok (), setStatus m p.uuid v)

/-- `PatchManager::get_patch_status` (mod.rs lines 151-165): returns the
cached status; a cached `Unknown` is resolved through the driver and stored
via `set_patch_status` before being returned. -/
def get_patch_status (d : Driver) (m : EntryMap) (p : Patch) :
    MResult PatchStatus :=
  match List.lookup p.uuid m with
  | none => ⟨.error ["Cannot find patch"], m, []⟩
  | some entry =>
    if entry.status = PatchStatus.Unknown then
      match d.status p with
      | .error e =>
        ⟨.error ("Driver: Failed to get patch status" :: e), m,
          [.driverStatus p.uuid]⟩
      | .ok st =>
        match set_patch_status m p st with
        | (.error e, m') =>
          ⟨.error ("Failed to set patch status" :: e), m',
            [.driverStatus p.uuid]⟩
        | (.ok _, m') => ⟨.ok st, m', [.driverStatus p.uuid]⟩
    else ⟨.ok entry.status, m, []⟩

/-- The transition actions of `TRANSITION_MAP`
(mod.rs lines 34-39: `PATCH_APPLY` .. `PATCH_DECLINE`). -/
inductive ActionTag where
  | apply
  | remove
  | active
  | deactive
  | accept
  | decline
deriving DecidableEq, Repr

/-- `TRANSITION_MAP` (mod.rs lines 52-101): the state machine table mapping a
`(from, to)` status pair to its ordered action list. -/
def transition_map : List ((PatchStatus × PatchStatus) × List ActionTag) :=
  [ ((.NotApplied, .Deactived), [.apply]),
    ((.NotApplied, .Actived), [.apply, .active]),
    ((.NotApplied, .Accepted), [.apply, .active, .accept]),
    ((.Deactived, .NotApplied), [.remove]),
    ((.Deactived, .Actived), [.active]),
    ((.Deactived, .Accepted), [.active, .accept]),
    ((.Actived, .NotApplied), [.deactive, .remove]),
    ((.Actived, .Deactived), [.deactive]),
    ((.Actived, .Accepted), [.accept]),
    ((.Accepted, .NotApplied), [.decline, .deactive, .remove]),
    ((.Accepted, .Deactived), [.decline, .deactive]),
    ((.Accepted, .Actived), [.decline]) ]

/-- `PatchManager::driver_apply_patch` (mod.rs lines 458-466):
driver check, then driver apply, then cache `Deactived`. -/
def driver_apply_patch (d : Driver) (m : EntryMap) (p : Patch) :
    MResult Unit :=
  match d.check p with
  | .error e =>
    ⟨.error ("Driver: Patch check failed" :: e), m, [.driverCheck p.uuid]⟩
  | .ok _ =>
    match d.apply p with
    | .error e =>
      ⟨.error ("Driver: Failed to apply patch" :: e), m,
        [.driverCheck p.uuid, .driverApply p.uuid]⟩
    | .ok _ =>
      match set_patch_status m p PatchStatus.Deactived with
      | (.error e, m') =>
        ⟨.error e, m', [.driverCheck p.uuid, .driverApply p.uuid]⟩
      | (.ok _, m') =>
        ⟨.ok (), m', [.driverCheck p.uuid, .driverApply p.uuid]⟩

/-- `PatchManager::driver_remove_patch` (mod.rs lines 468-473). -/
def driver_remove_patch (d : Driver) (m : EntryMap) (p : Patch) :
    MResult Unit :=
  match d.remove p with
  | .error e =>
    ⟨.error ("Driver: Failed to remove patch" :: e), m,
      [.driverRemove p.uuid]⟩
  | .ok _ =>
    match set_patch_status m p PatchStatus.NotApplied with
    | (.error e, m') => ⟨.error e, m', [.driverRemove p.uuid]⟩
    | (.ok _, m') => ⟨.ok (), m', [.driverRemove p.uuid]⟩

/-- `PatchManager::driver_active_patch` (mod.rs lines 475-480). -/
def driver_active_patch (d : Driver) (m : EntryMap) (p : Patch) :
    MResult Unit :=
  match d.active p with
  | .error e =>
    ⟨.error ("Driver: Failed to active patch" :: e), m,
      [.driverActive p.uuid]⟩
  | .ok _ =>
    match set_patch_status m p PatchStatus.Actived with
    | (.error e, m') => ⟨.error e, m', [.driverActive p.uuid]⟩
    | (.ok _, m') => ⟨.ok (), m', [.driverActive p.uuid]⟩

/-- `PatchManager::driver_deactive_patch` (mod.rs lines 482-487). -/
def driver_deactive_patch (d : Driver) (m : EntryMap) (p : Patch) :
    MResult Unit :=
  match d.deactive p with
  | .error e =>
    ⟨.error ("Driver: Failed to deactive patch" :: e), m,
      [.driverDeactive p.uuid]⟩
  | .ok _ =>
    match set_patch_status m p PatchStatus.Deactived with
    | (.error e, m') => ⟨.error e, m', [.driverDeactive p.uuid]⟩
    | (.ok _, m') => ⟨.ok (), m', [.driverDeactive p.uuid]⟩

/-- Lift the pure status mutations `do_patch_accept` / `do_patch_decline`
(mod.rs lines 489-495) into an `MResult`. -/
def liftSet (r : Except Err Unit × EntryMap) : MResult Unit :=
  ⟨r.1, r.2, []⟩

/-- Dispatch of one `TransitionAction` (mod.rs lines 34-39). -/
def runAction (d : Driver) (m : EntryMap) (p : Patch) :
    ActionTag → MResult Unit
  | .apply => driver_apply_patch d m p
  | .remove => driver_remove_patch d m p
  | .active => driver_active_patch d m p
  | .deactive => driver_deactive_patch d m p
  | .accept => liftSet (set_patch_status m p PatchStatus.Accepted)
  | .decline => liftSet (set_patch_status m p PatchStatus.Actived)

/-- The `for action in action_list` loop of `do_status_transition`
(mod.rs lines 348-350): run each action in order, stopping at the first
failure. -/
def runActions (d : Driver) (p : Patch) :
    List ActionTag → EntryMap → MResult Unit
  | [], m => ⟨.ok (), m, []⟩
  | a :: rest, m =>
    let r := runAction d m p a
    match r.res with
    | .error e => ⟨.error e, r.state, r.trace⟩
    | .ok _ =>
      let r2 := runActions d p rest r.state
      ⟨r2.res, r2.state, r.trace ++ r2.trace⟩

/-- `PatchManager::do_status_transition` (mod.rs lines 327-366): resolve the
current status; identical target is an immediate success; look the pair up in
`TRANSITION_MAP` and run its actions (a missing pair only logs a warning);
finally re-query the status and fail when it does not equal the target. -/
def do_status_transition (d : Driver) (m : EntryMap) (p : Patch)
    (target : PatchStatus) : MResult PatchStatus :=
  let g := get_patch_status d m p
  match g.res with
  | .error e =>
    ⟨.error e, g.state, Event.transition p.uuid target :: g.trace⟩
  | .ok cur =>
    if cur = target then
      ⟨.ok target, g.state, Event.transition p.uuid target :: g.trace⟩
    else
      let step : MResult Unit :=
        match List.lookup (cur, target) transition_map with
        | some acts => runActions d p acts g.state
        | none => ⟨.ok (), g.state, []⟩
      match step.res with
      | .error e =>
        ⟨.error e, step.state,
          Event.transition p.uuid target :: (g.trace ++ step.trace)⟩
      | .ok _ =>
        let g2 := get_patch_status d step.state p
        match g2.res with
        | .error e =>
          ⟨.error e, g2.state,
            Event.transition p.uuid target :: (g.trace ++ step.trace ++ g2.trace)⟩
        | .ok new =>
          if new = target then
            ⟨.ok new, g2.state,
              Event.transition p.uuid target :: (g.trace ++ step.trace ++ g2.trace)⟩
          else
            ⟨.error ["Patch does not reached status"], g2.state,
              Event.transition p.uuid target :: (g.trace ++ step.trace ++ g2.trace)⟩

/-! ## Transaction engine (`src/daemon/src/patch/transaction.rs`) -/

/-- `PatchStateRecord` returned by a successful transaction. -/
structure PatchStateRecord where
  name : String
  status : PatchStatus
deriving DecidableEq, Repr

/-- The transaction action closure `F: Fn(&mut PatchManager, &Patch) ->
Result<PatchStatus>`: an arbitrary state-transforming operation. -/
abbrev TxAction := EntryMap → Patch → MResult PatchStatus

/-- Outcome of `PatchTransaction::start`: result, successor state, trace, and
the `finish_list` stack (most recently finished patch first). -/
structure TxOutcome where
  res : Except Err (List PatchStateRecord)
  state : EntryMap
  trace : List Event
  finish : List (Patch × PatchStatus)
deriving Repr

/-- The `while let Some(patch) = patch_list.pop()` loop of
`PatchTransaction::start` (transaction.rs lines 48-64): for each patch record
the old status, run the action, push the state record and the
`(patch, old_status)` pair; stop at the first failure. -/
def txStartAux (d : Driver) (act : TxAction) :
    List Patch → EntryMap → List PatchStateRecord →
    List (Patch × PatchStatus) → List Event → TxOutcome
  | [], m, records, finish, tr => ⟨.ok records.reverse, m, tr, finish⟩
  | p :: rest, m, records, finish, tr =>
    let g := get_patch_status d m p
    match g.res with
    | .error e => ⟨.error e, g.state, tr ++ g.trace, finish⟩
    | .ok old =>
      let a := act g.state p
      match a.res with
      | .error e => ⟨.error e, a.state, tr ++ g.trace ++ a.trace, finish⟩
      | .ok new =>
        txStartAux d act rest a.state
          (⟨p.entity_name, new⟩ :: records) ((p, old) :: finish)
          (tr ++ g.trace ++ a.trace)

/-- `PatchTransaction::start`: `patch_list.pop()` takes patches from the end
of the matched vector, so the matched list is processed in reverse. -/
def txStart (d : Driver) (act : TxAction) (matched : List Patch)
    (m : EntryMap) : TxOutcome :=
  txStartAux d act matched.reverse m [] [] []

/-- `PatchTransaction::rollback` (transaction.rs lines 66-72): pop the
`finish_list` stack and call `do_status_transition(patch, old_status)` for
each entry, propagating the first failure. -/
def txRollback (d : Driver) :
    List (Patch × PatchStatus) → EntryMap → MResult Unit
  | [], m => ⟨.ok (), m, []⟩
  | (p, old) :: rest, m =>
    let r := do_status_transition d m p old
    match r.res with
    | .error e => ⟨.error e, r.state, r.trace⟩
    | .ok _ =>
      let r2 := txRollback d rest r.state
      ⟨r2.res, r2.state, r.trace ++ r2.trace⟩

/-- `PatchTransaction::invoke` (transaction.rs lines 74-93): on a start
failure with a non-empty finish list, roll back; a rollback error is
propagated (with the rollback context) by the `?` operator, otherwise the
original error is returned with the transaction context. -/
def txInvoke (name : String) (d : Driver) (act : TxAction)
    (matched : List Patch) (m : EntryMap) :
    MResult (List PatchStateRecord) :=
  let s := txStart d act matched m
  match s.res with
  | .ok records => ⟨.ok records, s.state, s.trace⟩
  | .error e =>
    if s.finish.isEmpty then
      ⟨.error (("Transaction " ++ name ++ " failed") :: e), s.state, s.trace⟩
    else
      let rb := txRollback d s.finish s.state
      match rb.res with
      | .error e2 =>
        ⟨.error (("Transaction " ++ name ++ " rollback failed") :: e2),
          rb.state, s.trace ++ rb.trace⟩
      | .ok _ =>
        ⟨.error (("Transaction " ++ name ++ " failed") :: e),
          rb.state, s.trace ++ rb.trace⟩

/-! ## Persistence (`save_patch_status` / `restore_patch_status`) -/

/-- The `for patch in self.get_patch_list()` resolution loop of
`save_patch_status` (mod.rs lines 227-230). -/
def saveLoop (d : Driver) : List Patch → EntryMap → Except Err Unit × EntryMap
  | [], m => (.ok (), m)
  | p :: rest, m =>
    let g := get_patch_status d m p
    match g.res with
    | .error e => (.error e, g.state)
    | .ok _ => saveLoop d rest g.state

/-- `PatchManager::save_patch_status` (mod.rs lines 223-244): resolve every
patch status through `get_patch_status`, then serialise the
`uuid -> status` map.  The returned list is the written file content. -/
def save_patch_status (d : Driver) (m : EntryMap) :
    Except Err (List (String × PatchStatus)) × EntryMap :=
  match saveLoop d (m.map (fun pr => pr.2.patch)) m with
  | (.error e, m') => (.error e, m')
  | (.ok _, m') => (.ok (m'.map (fun pr => (pr.1, pr.2.status))), m')

/-- Outcome of reading the `patch_status` file
(mod.rs lines 249-259): missing file, corrupt file, or content. -/
inductive StatusFile where
  | missing
  | corrupt
  | content (entries : List (String × PatchStatus))
deriving DecidableEq, Repr

/-- The `filter_map` of `restore_patch_status` (mod.rs lines 266-285): keep
entries whose uuid matches an installed patch; under `accepted_only`, skip
entries whose saved status is not `Accepted`. -/
def restoreFilter (m : EntryMap) (acceptedOnly : Bool)
    (entries : List (String × PatchStatus)) : List (Patch × PatchStatus) :=
  entries.filterMap (fun pr =>
    match List.lookup pr.1 m with
    | some entry =>
      if acceptedOnly && !(pr.2 = PatchStatus.Accepted) then none
      else some (entry.patch, pr.2)
    | none => none)

/-- The sort comparator of `restore_patch_status` (mod.rs lines 286-292) as a
`Bool` ordering: ascending `PatchStatus`, ties broken by the patch order
`ple` (the derived `Ord` of `Patch`, kept abstract). -/
def restoreLe (ple : Patch → Patch → Bool) (a b : Patch × PatchStatus) :
    Bool :=
  if statusRank a.2 < statusRank b.2 then true
  else if statusRank a.2 = statusRank b.2 then ple a.1 b.1
  else false

/-- The `for (patch, target_status) in restore_list` replay loop
(mod.rs lines 294-300). -/
def replayList (d : Driver) :
    List (Patch × PatchStatus) → EntryMap → MResult Unit
  | [], m => ⟨.ok (), m, []⟩
  | (p, st) :: rest, m =>
    let r := do_status_transition d m p st
    match r.res with
    | .error e => ⟨.error e, r.state, r.trace⟩
    | .ok _ =>
      let r2 := replayList d rest r.state
      ⟨r2.res, r2.state, r.trace ++ r2.trace⟩

/-- `PatchManager::restore_patch_status` (mod.rs lines 246-304): a missing
file is success without effect; a corrupt file is an error; otherwise filter,
sort ascending by `(status, patch)` and replay through
`do_status_transition`. -/
def restore_patch_status (d : Driver) (ple : Patch → Patch → Bool)
    (acceptedOnly : Bool) (file : StatusFile) (m : EntryMap) : MResult Unit :=
  match file with
  | .missing => ⟨.ok (), m, []⟩
  | .corrupt => ⟨.error ["Failed to read patch status"], m, []⟩
  | .content entries =>
    replayList d
      ((restoreFilter m acceptedOnly entries).mergeSort (restoreLe ple)) m

/-! ## Rescan (`PatchManager::rescan`, mod.rs lines 306-325) -/

/-- `scan_patches` (mod.rs lines 370-405) materialises each patch read from
disk as an entry with status `Unknown` keyed by its uuid. -/
def scanEntries (disk : List Patch) : List (String × PatchEntry) :=
  disk.map (fun p => (p.uuid, ⟨p, PatchStatus.Unknown⟩))

/-- The `if !entry_map.contains_key(&uuid)` insertion of `rescan`
(mod.rs lines 311-315): `IndexMap::insert` of a new key appends. -/
def insertNew (m : EntryMap) (pr : String × PatchEntry) : EntryMap :=
  if (List.lookup pr.1 m).isSome then m else m ++ [pr]

/-- The entity-name comparison of `rescan`'s `sort_by`
(mod.rs lines 317-322) as a `Bool` ordering. -/
def entityLe (a b : String × PatchEntry) : Bool :=
  a.2.patch.entity_name ≤ b.2.patch.entity_name

/-- `PatchManager::rescan` (mod.rs lines 306-325): insert scanned entries
whose uuid is new, then stably sort the entry map by entity name
(`IndexMap::sort_by`, a stable sort, embedded as `mergeSort`). -/
def rescan (disk : List Patch) (m : EntryMap) : EntryMap :=
  ((scanEntries disk).foldl insertNew m).mergeSort entityLe

/-! ## Kernel patch ELF resolver
(`src/syscared/src/patch/manager/entity/kernel_patch_ext.rs`) -/

/-- Failure of `KernelPatchExt::resolve_patch_file`: either an `anyhow` error
(the `InvalidFormat` class) or a Rust panic from out-of-range slice
indexing (`&string_data[name_offset..]` with `name_offset` past the end). -/
inductive RErr where
  | invalid (msg : String)
  | panicOutOfRange
deriving DecidableEq, Repr

/-- A resolved `KernelPatchSymbol` (kernel_patch_ext.rs lines 229-236);
strings are byte lists (`OsString::from_vec`). -/
structure KernelPatchSymbol where
  name : List Nat
  target : List Nat
  old_addr : Nat
  old_size : Nat
  new_addr : Nat
  new_size : Nat
deriving DecidableEq, Repr

/-- `size_of::<KpatchFunction>()`: 8 u64-sized fields plus one c_long,
72 bytes (kernel_patch_ext.rs line 59). -/
def KPATCH_FUNC_SIZE : Nat := 72

/-- Read a little-endian `u64` at byte offset `off` (native field access of
the `Pod`-cast `KpatchFunction` records on a 64-bit LE target). -/
def readLe64 (bytes : List Nat) (off : Nat) : Nat :=
  (List.range 8).foldr (fun i acc => acc * 256 + bytes.getD (off + i) 0) 0

/-- One `KpatchFunction` record materialised as a symbol with empty names
(kernel_patch_ext.rs lines 127-136): field offsets `new_addr` 0, `new_size`
8, `old_addr` 16, `old_size` 24. -/
def initSymbol (chunk : List Nat) : KernelPatchSymbol :=
  { name := [], target := [],
    old_addr := readLe64 chunk 16, old_size := readLe64 chunk 24,
    new_addr := readLe64 chunk 0, new_size := readLe64 chunk 8 }

/-- `object::slice_from_bytes::<KpatchFunction>(data, data.len() / 72)`
(kernel_patch_ext.rs lines 119-125): exactly `len / 72` records are read, a
trailing remainder is left in the ignored tail. -/
def parseFunctions (data : List Nat) : List KernelPatchSymbol :=
  (List.range (data.length / KPATCH_FUNC_SIZE)).map
    (fun i => initSymbol ((data.drop (KPATCH_FUNC_SIZE * i)).take KPATCH_FUNC_SIZE))

/-- Wrapping `usize` subtraction (release-mode
`offset as usize - FIELD_OFFSET` on a 64-bit target). -/
def sub64 (a b : Nat) : Nat :=
  (a % 2 ^ 64 + 2 ^ 64 - b) % 2 ^ 64

/-- `relocation.addend() as usize`: the `i64` addend reinterpreted as a
64-bit unsigned value. -/
def addendToUsize (a : Int) : Nat :=
  (a % (2 ^ 64 : Int)).toNat

/-- The string fetch of the resolver (kernel_patch_ext.rs lines 148-154):
`&string_data[addend..]` panics past the end of the section; otherwise the
bytes up to the first NUL are returned, and a missing NUL is an error. -/
def readKpatchString (sd : List Nat) (addend : Int) : Except RErr (List Nat) :=
  let off := addendToUsize addend
  if off ≤ sd.length then
    let tail := sd.drop off
    match tail.findIdx? (fun b => b = 0) with
    | none => .error (.invalid "Failed to find termination char")
    | some e => .ok (tail.take e)
  else .error .panicOutOfRange

/-- The relocation loop of `resolve_patch_file` (kernel_patch_ext.rs lines
139-177): relocations are classified by index modulo 3 (`NewAddr` 0 ignored,
`Name` 1 at field offset 40, `ObjName` 2 at field offset 48); the record
index is `(offset - field_offset) / 72`; an out-of-range record index is an
error, then the referenced string is fetched and assigned. -/
def applyRelocs (sd : List Nat) :
    List (Nat × Int) → Nat → List KernelPatchSymbol →
    Except RErr (List KernelPatchSymbol)
  | [], _, symbols => .ok symbols
  | (off, addend) :: rest, index, symbols =>
    match index % 3 with
    | 1 =>
      let si := sub64 off 40 / KPATCH_FUNC_SIZE
      match symbols.get? si with
      | none => .error (.invalid "Failed to find patch symbol")
      | some sym =>
        match readKpatchString sd addend with
        | .error e => .error e
        | .ok s =>
          applyRelocs sd rest (index + 1) (symbols.set si { sym with name := s })
    | 2 =>
      let si := sub64 off 48 / KPATCH_FUNC_SIZE
      match symbols.get? si with
      | none => .error (.invalid "Failed to find patch symbol")
      | some sym =>
        match readKpatchString sd addend with
        | .error e => .error e
        | .ok s =>
          applyRelocs sd rest (index + 1) (symbols.set si { sym with target := s })
    | _ => applyRelocs sd rest (index + 1) symbols

/-- The kernel patch artefact as seen by the resolver: the two kpatch
sections (when present) and the relocation list of `.kpatch.funcs` in
iteration order. -/
structure ElfInput where
  funcs : Option (List Nat)
  strings : Option (List Nat)
  relocations : List (Nat × Int)
deriving DecidableEq, Repr

/-- `KernelPatchExt::resolve_patch_file` (kernel_patch_ext.rs lines 98-180):
missing sections are errors; records are parsed by `parseFunctions`; the
relocation loop resolves names and targets. -/
def resolve_patch_file (inp : ElfInput) : Except RErr (List KernelPatchSymbol) :=
  match inp.funcs with
  | none => .error (.invalid "Cannot find section .kpatch.funcs")
  | some fd =>
    match inp.strings with
    | none => .error (.invalid "Cannot find section .kpatch.strings")
    | some sd => applyRelocs sd inp.relocations 0 (parseFunctions fd)

/-! ## Kernel patch driver
(`src/syscared/src/patch/manager/driver/kpatch/mod.rs`) -/

/-- Leading and trailing whitespace removal on a character list
(Rust `str::trim`; ASCII whitespace suffices for sysfs content). -/
def trimChars (l : List Char) : List Char :=
  ((l.dropWhile Char.isWhitespace).reverse.dropWhile Char.isWhitespace).reverse

/-- Rust `str::trim` on a string. -/
def rustTrim (s : String) : String := ⟨trimChars s.data⟩

/-- Rust `str::starts_with` / `OsStr::starts_with` on strings. -/
def strStartsWith (s pre : String) : Bool := List.isPrefixOf pre.data s.data

/-- Outcome of `fs::read_to_string` on the sysfs `enabled` file: its content,
a `NotFound` error, or any other IO error. -/
inductive SysfsRead where
  | content (s : String)
  | notFound
  | ioError (msg : String)
deriving DecidableEq, Repr

/-- `KernelPatchDriver::get_patch_status` (kpatch/mod.rs lines 89-112): the
trimmed content `"0"` is `Deactived`, `"1"` is `Actived`, a missing file is
`NotApplied`, any other content or read error fails. -/
def kpatch_get_patch_status (r : SysfsRead) : Except String PatchStatus :=
  match r with
  | .content s =>
    if rustTrim s = "0" then .ok PatchStatus.Deactived
    else if rustTrim s = "1" then .ok PatchStatus.Actived
    else .error ("Kpatch: Patch status " ++ rustTrim s ++ " is invalid")
  | .notFound => .ok PatchStatus.NotApplied
  | .ioError msg => .error msg

/-- `KernelPatchDriver::check_compatiblity` (kpatch/mod.rs lines 252-273):
fail exactly when `target_pkg_name` starts with `kernel-` and differs
byte-for-byte from `"kernel-" + uname release`. -/
def check_compatiblity (target_pkg_name kernel_version : String) :
    Except String Unit :=
  if strStartsWith target_pkg_name "kernel-"
      ∧ target_pkg_name ≠ "kernel-" ++ kernel_version
  then .error "Kpatch: Current kernel is incompatible with patch target"
  else .ok ()

/-! ## User patch driver (`src/syscared/src/patch/driver/upatch/mod.rs`) -/

/-- The driver's `status_map : IndexMap<Uuid, PatchStatus>`. -/
abbrev UStatusMap := List (String × PatchStatus)

/-- `UserPatchDriver::get_patch_status` (upatch/mod.rs lines 64-70): the
recorded status, defaulting to `NotApplied` for an unknown uuid. -/
def upatchGetStatus (m : UStatusMap) (uuid : String) : PatchStatus :=
  (List.lookup uuid m).getD PatchStatus.NotApplied

/-- `UserPatchDriver::set_patch_status` (upatch/mod.rs lines 72-75):
`*entry(uuid).or_default() = value` updates in place or appends. -/
def upatchSetStatus (m : UStatusMap) (uuid : String) (v : PatchStatus) :
    UStatusMap :=
  if (List.lookup uuid m).isSome then
    m.map (fun pr => if pr.1 = uuid then (pr.1, v) else pr)
  else m ++ [(uuid, v)]

/-- `UserPatchDriver::remove_patch_status` (upatch/mod.rs lines 77-79):
`status_map.remove(uuid)` (key removal; ordering is irrelevant to lookups
because uuids are unique). -/
def upatchRemoveStatus (m : UStatusMap) (uuid : String) : UStatusMap :=
  m.filter (fun pr => ¬ pr.1 = uuid)

/-- The status-map writes the user patch driver can perform: `apply` records
`Deactived` (line 292), `remove` erases the record (line 305), a successful
`active` records `Actived` (line 384), a successful `deactive` records
`Deactived` (line 467); an operation failing before its status write leaves
the map unchanged. -/
inductive UOp where
  | apply (uuid : String)
  | remove (uuid : String)
  | activeOk (uuid : String)
  | deactiveOk (uuid : String)
  | failed
deriving DecidableEq, Repr

/-- Effect of one driver operation on the status map. -/
def applyUOp (m : UStatusMap) : UOp → UStatusMap
  | .apply uuid => upatchSetStatus m uuid PatchStatus.Deactived
  | .remove uuid => upatchRemoveStatus m uuid
  | .activeOk uuid => upatchSetStatus m uuid PatchStatus.Actived
  | .deactiveOk uuid => upatchSetStatus m uuid PatchStatus.Deactived
  | .failed => m

/-- A reachable status map: the driver starts with an empty map
(upatch/mod.rs line 50) and folds its operations over it. -/
def runUOps (ops : List UOp) : UStatusMap :=
  ops.foldl applyUOp []

/-- `UserPatchDriver::status` (upatch/mod.rs lines 273-275): infallible
lookup wrapped in `Ok`. -/
def upatch_status (m : UStatusMap) (uuid : String) : Except Err PatchStatus :=
  .ok (upatchGetStatus m uuid)

/-- Boolean success test on `Except` (Rust `Result::is_ok`). -/
def isOkB {ε α : Type} : Except ε α → Bool
  | .ok _ => true
  | .error _ => false

/-- The aggregated error message of `UserPatchDriver::active`
(upatch/mod.rs lines 358-367): a header line, then one line per failed pid;
`writeln!` keeps the trailing newline (no `pop` in this branch). -/
def activeErrMsg (results : List (Int × Except String Unit)) : String :=
  "Upatch: Failed to active patch\n" ++
    String.join (results.map (fun pr =>
      match pr.2 with
      | .ok _ => ""
      | .error e => "* Process " ++ toString pr.1 ++ ": " ++ e ++ "\n"))

/-- The result check of `UserPatchDriver::active` (upatch/mod.rs lines
344-369): succeed when any per-pid activation succeeded, otherwise the
aggregated error. -/
def activeCheckResults (results : List (Int × Except String Unit)) :
    Except String Unit :=
  if results.any (fun pr => isOkB pr.2) then .ok ()
  else .error (activeErrMsg results)

/-- The per-pid activation loop of `UserPatchDriver::active` (upatch/mod.rs
lines 334-342): one `sys::active_patch` outcome per pid of `need_actived`,
in order. -/
def upatchActiveResults (need : List Int) (out : Int → Except String Unit) :
    List (Int × Except String Unit) :=
  need.map (fun pid => (pid, out pid))

/-- The activation outcome of `UserPatchDriver::active` as a function of the
`need_actived` pid set and the per-pid FFI outcome. -/
def upatch_active_result (need : List Int) (out : Int → Except String Unit) :
    Except String Unit :=
  activeCheckResults (upatchActiveResults need out)

/-! ## Concrete instances used by witnesses and counterexamples -/

/-- A driver whose primitives all succeed and whose status query resolves to
`Actived`. -/
def dOkDrv : Driver :=
  { status := fun _ => .ok PatchStatus.Actived,
    check := fun _ => .ok (),
    apply := fun _ => .ok (),
    remove := fun _ => .ok (),
    active := fun _ => .ok (),
    deactive := fun _ => .ok () }

/-- A driver whose `deactive` primitive fails (used to exercise a failing
rollback). -/
def dBadDeactive : Driver :=
  { status := fun _ => .ok PatchStatus.Actived,
    check := fun _ => .ok (),
    apply := fun _ => .ok (),
    remove := fun _ => .ok (),
    active := fun _ => .ok (),
    deactive := fun _ => .error ["bad-deactive"] }

/-- Patch the transaction action succeeds on. -/
def pGoodC1 : Patch := ⟨"good-uuid", "good-entity", "good", "tgt"⟩

/-- Patch the transaction action fails on. -/
def pBadC1 : Patch := ⟨"bad-uuid", "bad-entity", "bad", "tgt"⟩

/-- Entry map for the transaction scenarios: both patches `Deactived`. -/
def mC1 : EntryMap :=
  [("good-uuid", ⟨pGoodC1, PatchStatus.Deactived⟩),
   ("bad-uuid", ⟨pBadC1, PatchStatus.Deactived⟩)]

/-- Transaction action: activates `pGoodC1` (mimicking
`driver_active_patch`), fails on every other patch with root cause
`boom`. -/
def actC1 : TxAction := fun m p =>
  if p.uuid = "good-uuid" then
    ⟨.ok PatchStatus.Actived, setStatus m p.uuid PatchStatus.Actived,
      [Event.driverActive p.uuid]⟩
  else ⟨.error ["boom"], m, []⟩

/-- Patch and entry map for the `do_status_transition` counterexample. -/
def pC2 : Patch := ⟨"u2", "e2", "n2", "t2"⟩

/-- Entry map caching status `Actived` for `pC2`. -/
def mC2 : EntryMap := [("u2", ⟨pC2, PatchStatus.Actived⟩)]

/-- Patch order used by the restore witness: ascending uuid. -/
def pleUuid : Patch → Patch → Bool := fun a b => a.uuid ≤ b.uuid

/-- Patch with a cached `Unknown` status, for the resolution witness. -/
def pC5 : Patch := ⟨"u5", "e5", "n5", "t5"⟩

/-- Entry map caching status `Unknown` for `pC5`. -/
def mC5 : EntryMap := [("u5", ⟨pC5, PatchStatus.Unknown⟩)]

/-! ## Theorems -/

/-- C3: the user patch driver's activation outcome: the operation succeeds
exactly when some enumerated pid was activated successfully; in particular an
EMPTY `need_actived` set makes `active` fail with the bare aggregated header
(`any` over an empty result vector is `false`), contradicting the claim's
"OR the set of processes needing activation was empty" branch and the code's
own comment (`return error if all process fails`). -/
theorem upatch_active_empty_need_fails :
    (∀ (need : List Int) (out : Int → Except String Unit),
      isOkB (upatch_active_result need out) =
        (upatchActiveResults need out).any (fun pr => isOkB pr.2)) ∧
    (∀ out : Int → Except String Unit,
      upatch_active_result [] out = .error "Upatch: Failed to active patch\n") := by
  constructor
  · intro need out
    unfold upatch_active_result activeCheckResults
    split
    · next h => simpa [isOkB] using h
    · next h => simpa [isOkB] using h
  · intro out
    rfl

/-- C7: the kernel patch driver status query maps sysfs content `"0"`
(after whitespace trimming) to `Deactived`, `"1"` to `Actived`, a missing
file to `NotApplied`, and any other content to an error. -/
theorem kpatch_get_patch_status_spec :
    (∀ s : String,
      (kpatch_get_patch_status (.content s) = .ok PatchStatus.Deactived ↔
        rustTrim s = "0") ∧
      (kpatch_get_patch_status (.content s) = .ok PatchStatus.Actived ↔
        rustTrim s = "1") ∧
      (rustTrim s ≠ "0" → rustTrim s ≠ "1" →
        isOkB (kpatch_get_patch_status (.content s)) = false)) ∧
    kpatch_get_patch_status .notFound = .ok PatchStatus.NotApplied := by
  refine ⟨fun s => ?_, rfl⟩
  by_cases h0 : rustTrim s = "0" <;> by_cases h1 : rustTrim s = "1" <;>
    simp [kpatch_get_patch_status, h0, h1, isOkB]

/-- C7 witness: concrete sysfs contents exercising all four cases. -/
theorem kpatch_get_patch_status_spec_witness :
    kpatch_get_patch_status (.content "0\n") = .ok PatchStatus.Deactived ∧
    kpatch_get_patch_status (.content "1\n") = .ok PatchStatus.Actived ∧
    isOkB (kpatch_get_patch_status (.content "2")) = false ∧
    kpatch_get_patch_status .notFound = .ok PatchStatus.NotApplied :=
  ⟨(kpatch_get_patch_status_spec.1 "0\n").1.mpr (by decide),
   (kpatch_get_patch_status_spec.1 "1\n").2.1.mpr (by decide),
   (kpatch_get_patch_status_spec.1 "2").2.2 (by decide) (by decide),
   kpatch_get_patch_status_spec.2⟩

/-- C8: the kernel patch compatibility check fails exactly when the target
package name starts with `kernel-` and differs from
`"kernel-" + uname release`; a name without the prefix always passes. -/
theorem check_compatiblity_spec :
    ∀ t kv : String,
      (isOkB (check_compatiblity t kv) = false ↔
        (strStartsWith t "kernel-" = true ∧ t ≠ "kernel-" ++ kv)) ∧
      (¬ strStartsWith t "kernel-" = true →
        isOkB (check_compatiblity t kv) = true) := by
  intro t kv
  constructor
  · unfold check_compatiblity
    split
    · next h => simp_all [isOkB]
    · next h =>
        simp only [isOkB]
        constructor
        · intro hfalse
          exact absurd hfalse (by decide)
        · intro hab
          exact absurd hab h
  · intro h
    unfold check_compatiblity
    split
    · next hc => exact absurd hc.1 h
    · rfl

/-- C8 witness: a non-kernel target package always passes. -/
theorem check_compatiblity_spec_witness :
    isOkB (check_compatiblity "redis-6.2.5" "5.10.0-60.18.0.50") = true :=
  (check_compatiblity_spec "redis-6.2.5" "5.10.0-60.18.0.50").2 (by decide)

/-- C4 counterexample: the claim fails in two ways.  A `.kpatch.funcs`
section of 1 byte (not a multiple of the 72-byte record size) resolves
successfully — `len / 72` silently truncates — and a `Name` relocation whose
addend (1) lies past the end of an empty `.kpatch.strings` section makes the
slice indexing `&string_data[addend..]` panic instead of returning an
error. -/
theorem resolve_patch_file_counterexample :
    resolve_patch_file ⟨some [0], some [], []⟩ = .ok [] ∧
    ¬ (1 % KPATCH_FUNC_SIZE = 0) ∧
    resolve_patch_file
        ⟨some (List.replicate 72 0), some [], [(0, 0), (40, 1)]⟩ =
      .error RErr.panicOutOfRange := by
  refine ⟨rfl, by decide, by rfl⟩

/-- C4 (amended): resolving errors when a kpatch section is missing or a
referenced string lacks a NUL terminator; but a `.kpatch.funcs` data length
that is not a multiple of 72 is NOT an error — exactly `len / 72` records
are parsed and the remainder is silently ignored — and a relocation addend
past the end of `.kpatch.strings` is a panic (slice out of range), not an
error (an addend equal to the section length yields the termination
error). -/
theorem resolve_patch_file_error_conditions :
    (∀ inp : ElfInput, inp.funcs = none →
      resolve_patch_file inp =
        .error (.invalid "Cannot find section .kpatch.funcs")) ∧
    (∀ inp : ElfInput, inp.funcs ≠ none → inp.strings = none →
      resolve_patch_file inp =
        .error (.invalid "Cannot find section .kpatch.strings")) ∧
    (∀ fd sd : List Nat,
      resolve_patch_file ⟨some fd, some sd, []⟩ = .ok (parseFunctions fd) ∧
      (parseFunctions fd).length = fd.length / KPATCH_FUNC_SIZE) ∧
    (∀ (sd : List Nat) (a : Int), addendToUsize a ≤ sd.length →
      (∀ b ∈ sd.drop (addendToUsize a), b ≠ 0) →
      readKpatchString sd a =
        .error (.invalid "Failed to find termination char")) ∧
    (∀ (sd : List Nat) (a : Int), sd.length < addendToUsize a →
      readKpatchString sd a = .error .panicOutOfRange) := by
  refine ⟨?_, ?_, ?_, ?_, ?_⟩
  · intro inp h
    unfold resolve_patch_file
    rw [h]
  · intro inp h1 h2
    unfold resolve_patch_file
    rw [h2]
    match hf : inp.funcs with
    | none => exact absurd hf h1
    | some fd => rfl
  · intro fd sd
    refine ⟨rfl, ?_⟩
    simp [parseFunctions]
  · intro sd a hle hnz
    unfold readKpatchString
    rw [if_pos hle]
    have : (sd.drop (addendToUsize a)).findIdx? (fun b => b = 0) = none := by
      rw [List.findIdx?_eq_none_iff]
      intro x hx
      simpa using hnz x hx
    simp only [this]
  · intro sd a hlt
    unfold readKpatchString
    rw [if_neg (by omega)]

/-- C4 witness: concrete inputs for each amended error condition. -/
theorem resolve_patch_file_error_conditions_witness :
    resolve_patch_file ⟨none, some [], []⟩ =
      .error (.invalid "Cannot find section .kpatch.funcs") ∧
    resolve_patch_file ⟨some [], none, []⟩ =
      .error (.invalid "Cannot find section .kpatch.strings") ∧
    resolve_patch_file ⟨some [0], some [], []⟩ = .ok (parseFunctions [0]) ∧
    readKpatchString [7] 0 =
      .error (.invalid "Failed to find termination char") ∧
    readKpatchString [] 1 = .error .panicOutOfRange :=
  ⟨resolve_patch_file_error_conditions.1 ⟨none, some [], []⟩ rfl,
   resolve_patch_file_error_conditions.2.1 ⟨some [], none, []⟩ (by decide) rfl,
   (resolve_patch_file_error_conditions.2.2.1 [0] []).1,
   resolve_patch_file_error_conditions.2.2.2.1 [7] 0 (by decide) (by decide),
   resolve_patch_file_error_conditions.2.2.2.2 [] 1 (by decide)⟩

/-! ### Association list helper lemmas -/

theorem lookup_mem {β : Type} {u : String} {m : List (String × β)} {b : β}
    (h : List.lookup u m = some b) : (u, b) ∈ m := by
  induction m with
  | nil => simp [List.lookup] at h
  | cons pr rest ih =>
    rw [show pr = (pr.1, pr.2) from rfl, List.lookup_cons] at h
    cases hb : u == pr.1 with
    | true =>
      have h1 : u = pr.1 := beq_iff_eq.mp hb
      simp only [hb] at h
      have h2 : pr.2 = b := Option.some.inj h
      subst h1
      subst h2
      exact List.mem_cons_self _ _
    | false =>
      simp only [hb] at h
      exact List.mem_cons_of_mem _ (ih h)

theorem lookup_append_of_none {β : Type} {u : String}
    {m l2 : List (String × β)} (h : List.lookup u m = none) :
    List.lookup u (m ++ l2) = List.lookup u l2 := by
  induction m with
  | nil => simp
  | cons pr rest ih =>
    rw [List.cons_append]
    rw [show pr = (pr.1, pr.2) from rfl, List.lookup_cons] at h ⊢
    cases hb : u == pr.1 with
    | true => simp [hb] at h
    | false =>
      simp only [hb] at h ⊢
      exact ih h

theorem lookup_map_status {β : Type} {u : String} {m : List (String × β)}
    {b : β} (f : String × β → β) (h : List.lookup u m = some b) :
    List.lookup u
        (m.map (fun pr => if pr.1 = u then (pr.1, f pr) else pr)) =
      some (f (u, b)) := by
  induction m with
  | nil => simp [List.lookup] at h
  | cons pr rest ih =>
    rw [show pr = (pr.1, pr.2) from rfl, List.lookup_cons] at h
    cases hb : u == pr.1 with
    | true =>
      have h1 : u = pr.1 := beq_iff_eq.mp hb
      simp only [hb] at h
      have h2 : pr.2 = b := Option.some.inj h
      subst h1
      subst h2
      simp [List.map_cons, List.lookup_cons]
    | false =>
      have h1 : ¬ pr.1 = u := by
        intro hcc
        exact absurd hb (by simp [hcc])
      simp only [hb] at h
      simp only [List.map_cons, if_neg h1]
      rw [show (pr : String × β) = (pr.1, pr.2) from rfl, List.lookup_cons]
      simp only [hb]
      exact ih h

/-! ### User patch driver status-map invariant -/

theorem upatchSetStatus_statusOk {m : UStatusMap} {u : String}
    {v : PatchStatus} (hv : v ≠ PatchStatus.Unknown)
    (h : ∀ pr ∈ m, pr.2 ≠ PatchStatus.Unknown) :
    ∀ pr ∈ upatchSetStatus m u v, pr.2 ≠ PatchStatus.Unknown := by
  intro pr hpr
  unfold upatchSetStatus at hpr
  split at hpr
  · obtain ⟨pr', hpr', heq⟩ := List.mem_map.mp hpr
    by_cases hc : pr'.1 = u
    · rw [if_pos hc] at heq
      rw [← heq]
      exact hv
    · rw [if_neg hc] at heq
      rw [← heq]
      exact h pr' hpr'
  · rcases List.mem_append.mp hpr with h1 | h2
    · exact h pr h1
    · have : pr = (u, v) := by simpa using h2
      rw [this]
      exact hv

theorem runUOps_statusOk (ops : List UOp) :
    ∀ pr ∈ runUOps ops, pr.2 ≠ PatchStatus.Unknown := by
  suffices hgen : ∀ (ms : UStatusMap),
      (∀ pr ∈ ms, pr.2 ≠ PatchStatus.Unknown) →
      ∀ pr ∈ ops.foldl applyUOp ms, pr.2 ≠ PatchStatus.Unknown by
    exact hgen [] (by simp)
  induction ops with
  | nil =>
    intro ms hms
    simpa using hms
  | cons op rest ih =>
    intro ms hms
    rw [List.foldl_cons]
    refine ih (applyUOp ms op) ?_
    cases op with
    | apply u => exact upatchSetStatus_statusOk (by simp) hms
    | remove u =>
      intro pr hpr
      exact hms pr (List.mem_of_mem_filter hpr)
    | activeOk u => exact upatchSetStatus_statusOk (by simp) hms
    | deactiveOk u => exact upatchSetStatus_statusOk (by simp) hms
    | failed => exact hms

/-- C10: the user patch driver status query is infallible and never yields
`Unknown`: over any reachable status map it returns `NotApplied` for a uuid
without a record and the recorded status otherwise; recording a status makes
it the looked-up value and erasing a record resets the query to
`NotApplied`. -/
theorem upatch_status_spec :
    ∀ (ops : List UOp) (uuid : String),
      upatch_status (runUOps ops) uuid =
        .ok (upatchGetStatus (runUOps ops) uuid) ∧
      upatchGetStatus (runUOps ops) uuid ≠ PatchStatus.Unknown ∧
      (List.lookup uuid (runUOps ops) = none →
        upatchGetStatus (runUOps ops) uuid = PatchStatus.NotApplied) ∧
      (∀ s, List.lookup uuid (runUOps ops) = some s →
        upatchGetStatus (runUOps ops) uuid = s) ∧
      (∀ (m : UStatusMap) (v : PatchStatus),
        List.lookup uuid (upatchSetStatus m uuid v) = some v) ∧
      (∀ m : UStatusMap,
        List.lookup uuid (upatchRemoveStatus m uuid) = none) := by
  intro ops uuid
  refine ⟨rfl, ?_, ?_, ?_, ?_, ?_⟩
  · unfold upatchGetStatus
    cases hl : List.lookup uuid (runUOps ops) with
    | none => simp
    | some s =>
      simp only [Option.getD_some]
      exact runUOps_statusOk ops (uuid, s) (lookup_mem hl)
  · intro h
    simp [upatchGetStatus, h]
  · intro s h
    simp [upatchGetStatus, h]
  · intro m v
    unfold upatchSetStatus
    split
    · next hsome =>
      obtain ⟨b, hb⟩ := Option.isSome_iff_exists.mp hsome
      have := lookup_map_status (fun _ => v) hb
      simpa using this
    · next hnone =>
      rw [lookup_append_of_none (Option.not_isSome_iff_eq_none.mp hnone)]
      simp [List.lookup_cons]
  · intro m
    unfold upatchRemoveStatus
    rw [List.lookup_eq_none_iff]
    intro p hp
    have := List.of_mem_filter hp
    simp only [decide_not] at this
    have hne : ¬ p.1 = uuid := by
      by_contra hcc
      simp [hcc] at this
    exact bne_iff_ne.mpr (fun hcc => hne hcc.symm)

/-- C10 witness: a concrete operation history exercising record, erase and
default lookup. -/
theorem upatch_status_spec_witness :
    upatchGetStatus (runUOps [.apply "u", .activeOk "u", .remove "v"]) "u" =
      PatchStatus.Actived ∧
    upatchGetStatus (runUOps [.apply "u", .remove "u"]) "u" =
      PatchStatus.NotApplied :=
  ⟨(upatch_status_spec [.apply "u", .activeOk "u", .remove "v"] "u").2.2.2.1
      PatchStatus.Actived (by rfl),
   (upatch_status_spec [.apply "u", .remove "u"] "u").2.2.1 (by rfl)⟩

/-- C2 counterexample: `(Actived, Unknown)` is not in the transition table,
yet requesting it is not a status-returning no-op: the post-condition check
`new_status != status` fails and `do_status_transition` returns an error
(the state is indeed unchanged). -/
theorem do_status_transition_counterexample :
    List.lookup (PatchStatus.Actived, PatchStatus.Unknown) transition_map =
      none ∧
    (do_status_transition dOkDrv mC2 pC2 PatchStatus.Unknown).res =
      .error ["Patch does not reached status"] ∧
    (do_status_transition dOkDrv mC2 pC2 PatchStatus.Unknown).state = mC2 :=
  ⟨by decide, rfl, rfl⟩

/-- C2 (amended): for a status pair `(s1, s2)` outside the transition table,
`do_status_transition` performs no driver action and leaves the status at
`s1`; it returns `s1` when `s2 = s1` (the early same-status return), but when
`s2 ≠ s1` (for a resolved current status this means `s2 = Unknown`) the final
post-condition check fails and an error is returned instead of `s1`. -/
theorem do_status_transition_nontable_spec :
    ∀ (d : Driver) (m : EntryMap) (p : Patch) (entry : PatchEntry)
      (s2 : PatchStatus),
      List.lookup p.uuid m = some entry →
      entry.status ≠ PatchStatus.Unknown →
      List.lookup (entry.status, s2) transition_map = none →
      (do_status_transition d m p s2).state = m ∧
      (do_status_transition d m p s2).trace.filter Event.isDriver = [] ∧
      (s2 = entry.status →
        (do_status_transition d m p s2).res = .ok entry.status) ∧
      (s2 ≠ entry.status →
        (do_status_transition d m p s2).res =
          .error ["Patch does not reached status"]) := by
  intro d m p entry s2 hl hs ht
  have hg : get_patch_status d m p = ⟨.ok entry.status, m, []⟩ := by
    unfold get_patch_status
    rw [hl]
    simp [hs]
  by_cases hcase : entry.status = s2
  · subst hcase
    unfold do_status_transition
    rw [hg]
    simp [Event.isDriver]
  · have hd : do_status_transition d m p s2 =
        ⟨.error ["Patch does not reached status"], m,
          [Event.transition p.uuid s2]⟩ := by
      unfold do_status_transition
      rw [hg]
      simp [hcase, ht, hg]
    refine ⟨by rw [hd], by rw [hd]; simp [Event.isDriver], ?_, fun _ => by rw [hd]⟩
    intro hss
    exact absurd (Eq.symm hss) hcase

/-- C2 witness: an identity request on a cached `Actived` status (a pair
outside the table) is a no-op returning the status. -/
theorem do_status_transition_nontable_spec_witness :
    (do_status_transition dOkDrv mC2 pC2 PatchStatus.Actived).res =
      .ok PatchStatus.Actived ∧
    (do_status_transition dOkDrv mC2 pC2 PatchStatus.Actived).state = mC2 :=
  ⟨(do_status_transition_nontable_spec dOkDrv mC2 pC2
      ⟨pC2, PatchStatus.Actived⟩ PatchStatus.Actived rfl (by decide)
      (by decide)).2.2.1 rfl,
   (do_status_transition_nontable_spec dOkDrv mC2 pC2
      ⟨pC2, PatchStatus.Actived⟩ PatchStatus.Actived rfl (by decide)
      (by decide)).1⟩

/-! ### Status resolution lemmas (for the never-`Unknown` claims) -/

theorem lookup_map_status_other {β : Type} {u u' : String}
    {m : List (String × β)} (f : String × β → β) (h : u' ≠ u) :
    List.lookup u'
        (m.map (fun pr => if pr.1 = u then (pr.1, f pr) else pr)) =
      List.lookup u' m := by
  induction m with
  | nil => rfl
  | cons pr rest ih =>
    by_cases hc : pr.1 = u
    · have hb : (u' == pr.1) = false := by
        apply beq_eq_false_iff_ne.mpr
        intro hcc
        exact h (hcc.trans hc)
      simp only [List.map_cons, if_pos hc]
      rw [show ((pr.1, f pr) : String × β) = ((pr.1, f pr).1, (pr.1, f pr).2)
        from rfl, List.lookup_cons]
      rw [show (pr : String × β) = (pr.1, pr.2) from rfl, List.lookup_cons]
      simp only [hb]
      exact ih
    · simp only [List.map_cons, if_neg hc]
      rw [show (pr : String × β) = (pr.1, pr.2) from rfl, List.lookup_cons,
        List.lookup_cons]
      cases hb : u' == pr.1 with
      | true => rfl
      | false =>
        simp only [hb]
        exact ih

theorem mem_lookup_of_nodup {β : Type} {u : String} {l : List (String × β)}
    {b : β} (hmem : (u, b) ∈ l) (hnd : (l.map Prod.fst).Nodup) :
    List.lookup u l = some b := by
  induction l with
  | nil => simp at hmem
  | cons pr rest ih =>
    rw [List.map_cons, List.nodup_cons] at hnd
    rcases List.mem_cons.mp hmem with h1 | h2
    · rw [← h1]
      simp [List.lookup_cons]
    · have hkey : u ≠ pr.1 := by
        intro hcc
        apply hnd.1
        rw [← hcc]
        exact List.mem_map.mpr ⟨(u, b), h2, rfl⟩
      rw [show (pr : String × β) = (pr.1, pr.2) from rfl, List.lookup_cons]
      simp only [beq_eq_false_iff_ne.mpr hkey]
      exact ih h2 hnd.2

theorem setStatus_shape (m : EntryMap) (u : String) (v : PatchStatus) :
    (setStatus m u v).map (fun pr => (pr.1, pr.2.patch)) =
      m.map (fun pr => (pr.1, pr.2.patch)) := by
  unfold setStatus
  rw [List.map_map]
  apply List.map_congr_left
  intro pr _
  by_cases hc : pr.1 = u <;> simp [hc]

theorem get_patch_status_shape (d : Driver) (m : EntryMap) (p : Patch) :
    (get_patch_status d m p).state.map (fun pr => (pr.1, pr.2.patch)) =
      m.map (fun pr => (pr.1, pr.2.patch)) := by
  unfold get_patch_status
  cases hl : List.lookup p.uuid m with
  | none => rfl
  | some entry =>
    by_cases hu : entry.status = PatchStatus.Unknown
    · simp only [hu, if_pos rfl]
      cases hds : d.status p with
      | error e => rfl
      | ok st =>
        unfold set_patch_status
        by_cases hst : st = PatchStatus.Unknown
        · simp [hst]
        · simp only [if_neg hst, hl]
          exact setStatus_shape m p.uuid st
    · simp [hu]

theorem get_patch_status_ok {d : Driver} {m : EntryMap} {p : Patch}
    {s : PatchStatus} (h : (get_patch_status d m p).res = .ok s) :
    s ≠ PatchStatus.Unknown ∧
    ∃ e, List.lookup p.uuid (get_patch_status d m p).state = some e ∧
      e.status = s := by
  unfold get_patch_status at h ⊢
  cases hl : List.lookup p.uuid m with
  | none => simp [hl] at h
  | some entry =>
    by_cases hu : entry.status = PatchStatus.Unknown
    · simp only [hl, hu, if_pos rfl] at h ⊢
      cases hds : d.status p with
      | error e => simp [hds] at h
      | ok st =>
        simp only [hds] at h ⊢
        unfold set_patch_status at h ⊢
        by_cases hst : st = PatchStatus.Unknown
        · simp [hst] at h
        · simp only [if_neg hst, hl] at h ⊢
          have hs : st = s := by simpa using h
          subst hs
          refine ⟨hst, ?_⟩
          have := lookup_map_status
            (fun pr => { pr.2 with status := st }) hl
          exact ⟨{ entry with status := st }, by simpa [setStatus] using this,
            rfl⟩
    · simp only [hl, if_neg hu] at h ⊢
      have hs : entry.status = s := by simpa using h
      subst hs
      exact ⟨hu, entry, rfl, rfl⟩

theorem lookup_map_status_none {β : Type} {u : String}
    {m : List (String × β)} (f : String × β → β)
    (h : List.lookup u m = none) :
    List.lookup u
        (m.map (fun pr => if pr.1 = u then (pr.1, f pr) else pr)) =
      none := by
  induction m with
  | nil => rfl
  | cons pr rest ih =>
    rw [show pr = (pr.1, pr.2) from rfl, List.lookup_cons] at h
    cases hb : u == pr.1 with
    | true => simp [hb] at h
    | false =>
      simp only [hb] at h
      by_cases hc : pr.1 = u
      · exact absurd (beq_iff_eq.mpr hc.symm) (by simp [hb])
      · simp only [List.map_cons, if_neg hc]
        rw [show (pr : String × β) = (pr.1, pr.2) from rfl, List.lookup_cons]
        simp only [hb]
        exact ih h

theorem get_patch_status_state_cases (d : Driver) (m : EntryMap) (p : Patch) :
    (get_patch_status d m p).state = m ∨
    ∃ st, st ≠ PatchStatus.Unknown ∧
      (get_patch_status d m p).state = setStatus m p.uuid st := by
  unfold get_patch_status
  cases hl : List.lookup p.uuid m with
  | none => exact .inl rfl
  | some entry =>
    by_cases hu : entry.status = PatchStatus.Unknown
    · simp only [hu, if_pos rfl]
      cases hds : d.status p with
      | error e => exact .inl rfl
      | ok st =>
        unfold set_patch_status
        by_cases hst : st = PatchStatus.Unknown
        · simp [hst]
        · simp only [if_neg hst, hl]
          exact .inr ⟨st, hst, rfl⟩
    · simp [hu]

theorem get_patch_status_preserves_resolved {d : Driver} {m : EntryMap}
    {p : Patch} (u : String)
    (h : ∀ e, List.lookup u m = some e → e.status ≠ PatchStatus.Unknown) :
    ∀ e, List.lookup u (get_patch_status d m p).state = some e →
      e.status ≠ PatchStatus.Unknown := by
  rcases get_patch_status_state_cases d m p with hcase | ⟨st, hst, hcase⟩
  · rw [hcase]
    exact h
  · rw [hcase]
    by_cases hup : u = p.uuid
    · intro e he
      rw [hup] at he
      rw [show setStatus m p.uuid st =
        m.map (fun pr => if pr.1 = p.uuid then
          (pr.1, { pr.2 with status := st }) else pr) from rfl] at he
      cases hl : List.lookup p.uuid m with
      | none =>
        rw [lookup_map_status_none _ hl] at he
        exact absurd he (by simp)
      | some entry =>
        rw [lookup_map_status (fun pr => { pr.2 with status := st }) hl] at he
        have he2 : e = { entry with status := st } := by
          simpa using he.symm
        rw [he2]
        exact hst
    · intro e he
      rw [show setStatus m p.uuid st =
        m.map (fun pr => if pr.1 = p.uuid then
          (pr.1, { pr.2 with status := st }) else pr) from rfl,
        lookup_map_status_other _ hup] at he
      exact h e he


theorem saveLoop_ok {d : Driver} :
    ∀ (ps : List Patch) (m m' : EntryMap),
      saveLoop d ps m = (.ok (), m') →
      ((∀ u, (∀ e, List.lookup u m = some e →
            e.status ≠ PatchStatus.Unknown) →
        ∀ e, List.lookup u m' = some e → e.status ≠ PatchStatus.Unknown) ∧
      (∀ p ∈ ps, ∀ e, List.lookup p.uuid m' = some e →
        e.status ≠ PatchStatus.Unknown) ∧
      m'.map (fun pr => (pr.1, pr.2.patch)) =
        m.map (fun pr => (pr.1, pr.2.patch))) := by
  intro ps
  induction ps with
  | nil =>
    intro m m' h
    unfold saveLoop at h
    have hm : m = m' := congrArg Prod.snd h
    subst hm
    exact ⟨fun u hu => hu, by simp, rfl⟩
  | cons p rest ih =>
    intro m m' h
    unfold saveLoop at h
    cases hg : (get_patch_status d m p).res with
    | error e =>
      simp only [hg] at h
      exact absurd (congrArg Prod.fst h) (by simp)
    | ok s =>
      simp only [hg] at h
      obtain ⟨hpres, hall, hshape⟩ := ih (get_patch_status d m p).state m' h
      refine ⟨?_, ?_, ?_⟩
      · intro u hu
        exact hpres u (get_patch_status_preserves_resolved u hu)
      · intro q hq
        rcases List.mem_cons.mp hq with h1 | h2
        · subst h1
          obtain ⟨hs, e0, he0, hst⟩ := get_patch_status_ok hg
          refine hpres q.uuid ?_
          intro e he
          have he1 : e = e0 := Option.some.inj (he ▸ he0 ▸ rfl)
          rw [he1, hst]
          exact hs
        · exact hall q h2
      · rw [hshape, get_patch_status_shape]

/-- C5: a patch status visible to callers is never `Unknown`: a successful
`get_patch_status` returns a non-`Unknown` status and caches exactly that
value, `set_patch_status` rejects `Unknown`, and a successful
`save_patch_status` resolves every entry through `get_patch_status` first,
so the written status map contains no `Unknown` entry. -/
theorem patch_status_never_unknown :
    (∀ (d : Driver) (m : EntryMap) (p : Patch) (s : PatchStatus),
      (get_patch_status d m p).res = .ok s →
      s ≠ PatchStatus.Unknown ∧
      ∃ e, List.lookup p.uuid (get_patch_status d m p).state = some e ∧
        e.status = s) ∧
    (∀ (m : EntryMap) (p : Patch),
      (set_patch_status m p PatchStatus.Unknown).1 =
        .error ["Cannot set patch status to Unknown"] ∧
      (set_patch_status m p PatchStatus.Unknown).2 = m) ∧
    (∀ (d : Driver) (m : EntryMap) (written : List (String × PatchStatus)),
      (m.map Prod.fst).Nodup →
      (∀ pr ∈ m, pr.2.patch.uuid = pr.1) →
      (save_patch_status d m).1 = .ok written →
      ∀ pr ∈ written, pr.2 ≠ PatchStatus.Unknown) := by
  refine ⟨fun d m p s h => get_patch_status_ok h, fun m p => ⟨rfl, rfl⟩, ?_⟩
  intro d m written hnd hcoh hsave pr hpr
  unfold save_patch_status at hsave
  cases hsl : saveLoop d (m.map fun pr => pr.2.patch) m with
  | mk r m2 =>
    rw [hsl] at hsave
    cases r with
    | error e => simp at hsave
    | ok u0 =>
      have hw : written = m2.map (fun pr => (pr.1, pr.2.status)) := by
        simpa using hsave.symm
      subst hw
      have hloop : saveLoop d (m.map fun pr => pr.2.patch) m =
          (.ok (), m2) := by
        rw [hsl]
      obtain ⟨hpres, hall, hshape⟩ :=
        saveLoop_ok (m.map fun pr => pr.2.patch) m m2 hloop
      obtain ⟨e', he', heq⟩ := List.mem_map.mp hpr
      have hkeys : m2.map Prod.fst = m.map Prod.fst := by
        have h1 : (m2.map (fun pr => (pr.1, pr.2.patch))).map Prod.fst =
            m2.map Prod.fst := by
          rw [List.map_map]
          rfl
        have h2 : (m.map (fun pr => (pr.1, pr.2.patch))).map Prod.fst =
            m.map Prod.fst := by
          rw [List.map_map]
          rfl
        rw [← h1, hshape, h2]
      have hnd2 : (m2.map Prod.fst).Nodup := by
        rw [hkeys]
        exact hnd
      have hshapemem : (e'.1, e'.2.patch) ∈
          m.map (fun pr => (pr.1, pr.2.patch)) := by
        rw [← hshape]
        exact List.mem_map.mpr ⟨e', he', rfl⟩
      obtain ⟨q, hq, hqe⟩ := List.mem_map.mp hshapemem
      obtain ⟨hq1, hq2⟩ := Prod.mk.injEq _ _ _ _ ▸ hqe
      have hcoh2 : e'.2.patch.uuid = e'.1 := by
        rw [← hq1, ← hq2]
        exact hcoh q hq
      have hpmem : e'.2.patch ∈ m.map (fun pr => pr.2.patch) := by
        have hmm : q.2.patch ∈ m.map (fun pr => pr.2.patch) :=
          List.mem_map.mpr ⟨q, hq, rfl⟩
        rw [← hq2]
        exact hmm
      have hlk : List.lookup e'.1 m2 = some e'.2 :=
        mem_lookup_of_nodup he' hnd2
      have hres := hall e'.2.patch hpmem e'.2 (by rw [hcoh2]; exact hlk)
      rw [← heq]
      exact hres

/-- C5 witness: resolving a cached `Unknown` through the driver and saving a
resolved map. -/
theorem patch_status_never_unknown_witness :
    PatchStatus.Actived ≠ PatchStatus.Unknown ∧
    (∃ e, List.lookup pC5.uuid (get_patch_status dOkDrv mC5 pC5).state =
        some e ∧ e.status = PatchStatus.Actived) ∧
    ∀ pr ∈ [("u5", PatchStatus.Actived)], pr.2 ≠ PatchStatus.Unknown :=
  ⟨(patch_status_never_unknown.1 dOkDrv mC5 pC5 PatchStatus.Actived rfl).1,
   (patch_status_never_unknown.1 dOkDrv mC5 pC5 PatchStatus.Actived rfl).2,
   patch_status_never_unknown.2.2 dOkDrv mC5 [("u5", PatchStatus.Actived)]
     (by decide) (by decide) rfl⟩

/-! ### Rescan lemmas -/

theorem lookup_append_of_some {β : Type} {u : String}
    {m l2 : List (String × β)} {b : β} (h : List.lookup u m = some b) :
    List.lookup u (m ++ l2) = some b := by
  induction m with
  | nil => simp [List.lookup] at h
  | cons pr rest ih =>
    rw [List.cons_append]
    rw [show pr = (pr.1, pr.2) from rfl, List.lookup_cons] at h ⊢
    cases hb : u == pr.1 with
    | true => simpa [hb] using h
    | false =>
      simp only [hb] at h ⊢
      exact ih h

theorem lookup_append_cases {β : Type} {u : String}
    {m l2 : List (String × β)} {b : β}
    (h : List.lookup u (m ++ l2) = some b) :
    List.lookup u m = some b ∨
      (List.lookup u m = none ∧ List.lookup u l2 = some b) := by
  cases hm : List.lookup u m with
  | some c =>
    left
    have hx : List.lookup u (m ++ l2) = some c := lookup_append_of_some hm
    rw [hx] at h
    exact h
  | none =>
    right
    refine ⟨rfl, ?_⟩
    rw [lookup_append_of_none hm] at h
    exact h

theorem lookup_none_iff_keys {β : Type} {u : String}
    {l : List (String × β)} :
    List.lookup u l = none ↔ ¬ u ∈ l.map Prod.fst := by
  rw [List.lookup_eq_none_iff]
  constructor
  · intro h hmem
    obtain ⟨p, hp, hpe⟩ := List.mem_map.mp hmem
    exact (bne_iff_ne.mp (h p hp)) hpe.symm
  · intro h p hp
    refine bne_iff_ne.mpr ?_
    intro hcc
    exact h (List.mem_map.mpr ⟨p, hp, hcc.symm⟩)

theorem lookup_perm {β : Type} {l l' : List (String × β)} (hp : l.Perm l')
    (hnd : (l.map Prod.fst).Nodup) (u : String) :
    List.lookup u l = List.lookup u l' := by
  cases hl' : List.lookup u l' with
  | some b =>
    exact mem_lookup_of_nodup (hp.mem_iff.mpr (lookup_mem hl')) hnd
  | none =>
    rw [lookup_none_iff_keys] at hl' ⊢
    intro hmem
    exact hl' ((hp.map Prod.fst).mem_iff.mp hmem)

theorem foldl_insertNew_some {u : String} {e : PatchEntry} :
    ∀ (l : List (String × PatchEntry)) (m : EntryMap),
      List.lookup u m = some e →
      List.lookup u (l.foldl insertNew m) = some e := by
  intro l
  induction l with
  | nil =>
    intro m h
    exact h
  | cons pr rest ih =>
    intro m h
    rw [List.foldl_cons]
    refine ih _ ?_
    unfold insertNew
    split
    · exact h
    · exact lookup_append_of_some h

theorem foldl_insertNew_isSome {u : String}
    (l : List (String × PatchEntry)) (m : EntryMap)
    (h : (List.lookup u m).isSome) :
    (List.lookup u (l.foldl insertNew m)).isSome := by
  obtain ⟨e, he⟩ := Option.isSome_iff_exists.mp h
  rw [foldl_insertNew_some l m he]
  rfl

theorem foldl_insertNew_mem_present :
    ∀ (l : List (String × PatchEntry)) (m : EntryMap) (pr : String × PatchEntry),
      pr ∈ l → (List.lookup pr.1 (l.foldl insertNew m)).isSome := by
  intro l
  induction l with
  | nil =>
    intro m pr h
    simp at h
  | cons q rest ih =>
    intro m pr h
    rw [List.foldl_cons]
    rcases List.mem_cons.mp h with h1 | h2
    · subst h1
      refine foldl_insertNew_isSome rest _ ?_
      unfold insertNew
      split
      · next hs => exact hs
      · next hs =>
        have hn : List.lookup pr.1 m = none := by
          cases hx : List.lookup pr.1 m with
          | none => rfl
          | some b => exact absurd (by rw [hx]; rfl) hs
        rw [lookup_append_of_none hn]
        simp [List.lookup_cons]
    · exact ih _ pr h2

theorem foldl_insertNew_rev {u : String} {e : PatchEntry} :
    ∀ (l : List (String × PatchEntry)) (m : EntryMap),
      List.lookup u (l.foldl insertNew m) = some e →
      List.lookup u m = some e ∨ (u, e) ∈ l := by
  intro l
  induction l with
  | nil =>
    intro m h
    exact .inl h
  | cons q rest ih =>
    intro m h
    rw [List.foldl_cons] at h
    rcases ih _ h with h1 | h2
    · unfold insertNew at h1
      split at h1
      · exact .inl h1
      · rcases lookup_append_cases h1 with ha | ⟨hn, hb⟩
        · exact .inl ha
        · right
          rw [show q = (q.1, q.2) from rfl, List.lookup_cons] at hb
          cases hq : u == q.1 with
          | true =>
            simp only [hq] at hb
            have h1q : u = q.1 := beq_iff_eq.mp hq
            have h2q : q.2 = e := Option.some.inj hb
            rw [h1q, ← h2q]
            exact List.mem_cons_self _ _
          | false => simp [hq] at hb
    · exact .inr (List.mem_cons_of_mem _ h2)

theorem foldl_insertNew_nodup :
    ∀ (l : List (String × PatchEntry)) (m : EntryMap),
      (m.map Prod.fst).Nodup →
      ((l.foldl insertNew m).map Prod.fst).Nodup := by
  intro l
  induction l with
  | nil =>
    intro m h
    exact h
  | cons q rest ih =>
    intro m h
    rw [List.foldl_cons]
    refine ih _ ?_
    unfold insertNew
    split
    · exact h
    · next hs =>
      rw [List.map_append]
      refine List.Nodup.append h (by simp) ?_
      intro a ha hb
      have hb2 : a = q.1 := by simpa using hb
      have hn : List.lookup q.1 m = none := by
        cases hx : List.lookup q.1 m with
        | none => rfl
        | some b => exact absurd (by rw [hx]; rfl) hs
      refine (lookup_none_iff_keys.mp hn) ?_
      rw [← hb2]
      exact ha

theorem foldl_insertNew_all_present
    (l : List (String × PatchEntry)) (m : EntryMap)
    (h : ∀ pr ∈ l, (List.lookup pr.1 m).isSome) :
    l.foldl insertNew m = m := by
  induction l with
  | nil => rfl
  | cons q rest ih =>
    rw [List.foldl_cons]
    have hq : insertNew m q = m := by
      unfold insertNew
      rw [if_pos (h q (List.mem_cons_self _ _))]
    rw [hq]
    exact ih (fun pr hpr => h pr (List.mem_cons_of_mem _ hpr))

theorem entityLe_trans :
    ∀ a b c, entityLe a b = true → entityLe b c = true →
      entityLe a c = true := by
  intro a b c
  simp only [entityLe, decide_eq_true_eq]
  exact le_trans

theorem entityLe_total : ∀ a b, (entityLe a b || entityLe b a) = true := by
  intro a b
  simp only [entityLe, Bool.or_eq_true, decide_eq_true_eq]
  exact le_total _ _

/-- C9: `rescan` is idempotent on an unchanged `patches/` directory and never
removes or mutates an existing entry: every uuid already present keeps its
exact entry (patch record and status), every surviving entry either was
already present or is a newly scanned patch inserted with status `Unknown`,
and the resulting map is sorted by entity name. -/
theorem rescan_spec :
    ∀ (disk : List Patch) (m : EntryMap),
      (m.map Prod.fst).Nodup →
      (rescan disk (rescan disk m) = rescan disk m ∧
       (∀ u e, List.lookup u m = some e →
         List.lookup u (rescan disk m) = some e) ∧
       (∀ u e, List.lookup u (rescan disk m) = some e →
         List.lookup u m = some e ∨
           (e.status = PatchStatus.Unknown ∧ e.patch ∈ disk ∧
             e.patch.uuid = u)) ∧
       List.Pairwise (fun a b => entityLe a b = true) (rescan disk m)) := by
  intro disk m hnd
  have hfoldnd :
      (((scanEntries disk).foldl insertNew m).map Prod.fst).Nodup :=
    foldl_insertNew_nodup _ m hnd
  have hperm :
      ((scanEntries disk).foldl insertNew m).Perm (rescan disk m) :=
    (List.mergeSort_perm _ _).symm
  have hlook : ∀ u, List.lookup u (rescan disk m) =
      List.lookup u ((scanEntries disk).foldl insertNew m) := by
    intro u
    exact (lookup_perm hperm hfoldnd u).symm
  have hsorted :
      List.Pairwise (fun a b => entityLe a b = true) (rescan disk m) :=
    List.sorted_mergeSort entityLe_trans entityLe_total _
  have hall : ∀ pr ∈ scanEntries disk,
      (List.lookup pr.1 (rescan disk m)).isSome := by
    intro pr hpr
    rw [hlook]
    exact foldl_insertNew_mem_present _ m pr hpr
  refine ⟨?_, ?_, ?_, hsorted⟩
  · have hstep : (scanEntries disk).foldl insertNew (rescan disk m) =
        rescan disk m :=
      foldl_insertNew_all_present _ _ hall
    show ((scanEntries disk).foldl insertNew (rescan disk m)).mergeSort
      entityLe = rescan disk m
    rw [hstep]
    exact List.mergeSort_of_sorted hsorted
  · intro u e h
    rw [hlook]
    exact foldl_insertNew_some _ m h
  · intro u e h
    rw [hlook] at h
    rcases foldl_insertNew_rev _ m h with h1 | h2
    · exact .inl h1
    · right
      obtain ⟨p, hp, hpe⟩ := List.mem_map.mp h2
      obtain ⟨h1e, h2e⟩ := Prod.mk.injEq _ _ _ _ ▸ hpe
      refine ⟨?_, ?_, ?_⟩
      · rw [← h2e]
      · rw [← h2e]
        exact hp
      · rw [← h2e]
        exact h1e

/-- C9 witness: a fresh scan of one patch into an empty map. -/
theorem rescan_spec_witness :
    rescan [pGoodC1] (rescan [pGoodC1] []) = rescan [pGoodC1] [] ∧
    List.Pairwise (fun a b => entityLe a b = true) (rescan [pGoodC1] []) :=
  ⟨(rescan_spec [pGoodC1] [] (by decide)).1,
   (rescan_spec [pGoodC1] [] (by decide)).2.2.2⟩

/-! ### Trace lemmas for transitions and replay -/

theorem filter_transition_nil {tr : List Event}
    (h : ∀ ev ∈ tr, ev.isTransition = false) :
    tr.filter Event.isTransition = [] := by
  rw [List.filter_eq_nil_iff]
  intro a ha
  simp [h a ha]

theorem get_patch_status_trace_driver (d : Driver) (m : EntryMap)
    (p : Patch) :
    ∀ ev ∈ (get_patch_status d m p).trace, ev.isTransition = false := by
  unfold get_patch_status
  repeat' split
  all_goals simp [Event.isTransition]

theorem runAction_trace_driver (d : Driver) (m : EntryMap) (p : Patch)
    (a : ActionTag) :
    ∀ ev ∈ (runAction d m p a).trace, ev.isTransition = false := by
  cases a <;>
    · simp only [runAction, driver_apply_patch, driver_remove_patch,
        driver_active_patch, driver_deactive_patch, liftSet]
      repeat' split
      all_goals simp [Event.isTransition]

theorem runActions_trace_driver (d : Driver) (p : Patch) :
    ∀ (acts : List ActionTag) (m : EntryMap),
      ∀ ev ∈ (runActions d p acts m).trace, ev.isTransition = false := by
  intro acts
  induction acts with
  | nil =>
    intro m ev h
    simp [runActions] at h
  | cons a rest ih =>
    intro m ev h
    simp only [runActions] at h
    cases hr : (runAction d m p a).res with
    | error e =>
      simp only [hr] at h
      exact runAction_trace_driver d m p a ev h
    | ok v =>
      simp only [hr] at h
      rcases List.mem_append.mp h with h1 | h2
      · exact runAction_trace_driver d m p a ev h1
      · exact ih _ ev h2

theorem do_status_transition_trace_filter (d : Driver) (m : EntryMap)
    (p : Patch) (t : PatchStatus) :
    (do_status_transition d m p t).trace.filter Event.isTransition =
      [Event.transition p.uuid t] := by
  have hg1 := get_patch_status_trace_driver d m p
  unfold do_status_transition
  cases hr : (get_patch_status d m p).res with
  | error e =>
    simp only [hr, List.filter_cons]
    simp [Event.isTransition, filter_transition_nil hg1]
  | ok cur =>
    simp only [hr]
    by_cases hct : cur = t
    · simp only [if_pos hct, List.filter_cons]
      simp [Event.isTransition, filter_transition_nil hg1]
    · simp only [if_neg hct]
      have hstep : ∀ ev ∈ (match List.lookup (cur, t) transition_map with
          | some acts => runActions d p acts (get_patch_status d m p).state
          | none => (⟨.ok (), (get_patch_status d m p).state, []⟩ :
              MResult Unit)).trace, ev.isTransition = false := by
        cases hlk : List.lookup (cur, t) transition_map with
        | some acts =>
          simp only [hlk]
          exact runActions_trace_driver d p acts _
        | none => simp [hlk]
      set step := (match List.lookup (cur, t) transition_map with
        | some acts => runActions d p acts (get_patch_status d m p).state
        | none => (⟨.ok (), (get_patch_status d m p).state, []⟩ :
            MResult Unit)) with hstepdef
      have hg2 := get_patch_status_trace_driver d step.state p
      cases hsr : step.res with
      | error e =>
        simp only [hsr]
        rw [List.filter_cons, if_pos (show Event.isTransition
          (Event.transition p.uuid t) = true from rfl)]
        rw [List.filter_append, filter_transition_nil hg1,
          filter_transition_nil hstep]
        rfl
      | ok v =>
        simp only [hsr]
        cases hgr : (get_patch_status d step.state p).res with
        | error e =>
          simp only [hgr]
          rw [List.filter_cons, if_pos (show Event.isTransition
            (Event.transition p.uuid t) = true from rfl)]
          rw [List.filter_append, List.filter_append,
            filter_transition_nil hg1, filter_transition_nil hstep,
            filter_transition_nil hg2]
          rfl
        | ok new =>
          simp only [hgr]
          by_cases hnt : new = t
          · rw [if_pos hnt]
            rw [List.filter_cons, if_pos (show Event.isTransition
              (Event.transition p.uuid t) = true from rfl)]
            rw [List.filter_append, List.filter_append,
              filter_transition_nil hg1, filter_transition_nil hstep,
              filter_transition_nil hg2]
            rfl
          · rw [if_neg hnt]
            rw [List.filter_cons, if_pos (show Event.isTransition
              (Event.transition p.uuid t) = true from rfl)]
            rw [List.filter_append, List.filter_append,
              filter_transition_nil hg1, filter_transition_nil hstep,
              filter_transition_nil hg2]
            rfl

theorem replayList_trace (d : Driver) :
    ∀ (l : List (Patch × PatchStatus)) (m : EntryMap) (u : Unit),
      (replayList d l m).res = .ok u →
      (replayList d l m).trace.filter Event.isTransition =
        l.map (fun pr => Event.transition pr.1.uuid pr.2) := by
  intro l
  induction l with
  | nil =>
    intro m u h
    rfl
  | cons pr rest ih =>
    intro m u h
    simp only [replayList] at h ⊢
    cases hr : (do_status_transition d m pr.1 pr.2).res with
    | error e =>
      rw [show pr = (pr.1, pr.2) from rfl] at h
      simp only [hr] at h
      cases h
    | ok v =>
      rw [show pr = (pr.1, pr.2) from rfl] at h ⊢
      simp only [hr] at h ⊢
      rw [List.filter_append, do_status_transition_trace_filter,
        List.map_cons]
      rw [ih _ u h]
      rfl

theorem restoreLe_cases {ple : Patch → Patch → Bool}
    {a b : Patch × PatchStatus} (h : restoreLe ple a b = true) :
    statusRank a.2 < statusRank b.2 ∨
      (statusRank a.2 = statusRank b.2 ∧ ple a.1 b.1 = true) := by
  unfold restoreLe at h
  by_cases h1 : statusRank a.2 < statusRank b.2
  · exact .inl h1
  · rw [if_neg h1] at h
    by_cases h2 : statusRank a.2 = statusRank b.2
    · rw [if_pos h2] at h
      exact .inr ⟨h2, h⟩
    · rw [if_neg h2] at h
      cases h

theorem restoreLe_trans (ple : Patch → Patch → Bool)
    (hple : ∀ a b c, ple a b = true → ple b c = true → ple a c = true) :
    ∀ a b c, restoreLe ple a b = true → restoreLe ple b c = true →
      restoreLe ple a c = true := by
  intro a b c hab hbc
  have hab2 := restoreLe_cases hab
  have hbc2 := restoreLe_cases hbc
  unfold restoreLe
  rcases hab2 with h | ⟨he, hp⟩
  · rcases hbc2 with h2 | ⟨he2, hp2⟩
    · rw [if_pos (lt_trans h h2)]
    · rw [if_pos (he2 ▸ h)]
  · rcases hbc2 with h2 | ⟨he2, hp2⟩
    · rw [if_pos (he ▸ h2)]
    · rw [if_neg (by omega), if_pos (he.trans he2)]
      exact hple _ _ _ hp hp2

theorem restoreLe_total (ple : Patch → Patch → Bool)
    (hple : ∀ a b, (ple a b || ple b a) = true) :
    ∀ a b, (restoreLe ple a b || restoreLe ple b a) = true := by
  intro a b
  unfold restoreLe
  rcases lt_trichotomy (statusRank a.2) (statusRank b.2) with h | h | h
  · rw [if_pos h]
    rfl
  · rw [if_neg (by omega), if_pos h, if_neg (by omega), if_pos h.symm]
    exact hple a.1 b.1
  · rw [if_neg (by omega), if_neg (by omega), if_pos h]
    simp

/-- C6: `restore_patch_status`: a missing status file is a success without
any state change or side effect; otherwise the matched entries (with
non-`Accepted` entries skipped under `accepted_only`) are sorted ascending by
status with ties broken by the patch order, and on success each sorted entry
is replayed through exactly one `do_status_transition` call, in sorted
order. -/
theorem restore_patch_status_spec :
    ∀ (d : Driver) (ple : Patch → Patch → Bool) (ao : Bool)
      (entries : List (String × PatchStatus)) (m : EntryMap),
      (∀ a b c, ple a b = true → ple b c = true → ple a c = true) →
      (∀ a b, (ple a b || ple b a) = true) →
      (restore_patch_status d ple ao .missing m =
        ⟨.ok (), m, []⟩) ∧
      ((restoreFilter m ao entries).mergeSort (restoreLe ple)).Perm
        (restoreFilter m ao entries) ∧
      List.Pairwise (fun a b => restoreLe ple a b = true)
        ((restoreFilter m ao entries).mergeSort (restoreLe ple)) ∧
      (∀ pr ∈ restoreFilter m true entries, pr.2 = PatchStatus.Accepted) ∧
      (∀ u : Unit,
        (restore_patch_status d ple ao (.content entries) m).res = .ok u →
        (restore_patch_status d ple ao (.content entries) m).trace.filter
            Event.isTransition =
          ((restoreFilter m ao entries).mergeSort (restoreLe ple)).map
            (fun pr => Event.transition pr.1.uuid pr.2)) := by
  intro d ple ao entries m htrans htotal
  refine ⟨rfl, List.mergeSort_perm _ _, ?_, ?_, ?_⟩
  · exact List.sorted_mergeSort (restoreLe_trans ple htrans)
      (restoreLe_total ple htotal) _
  · intro pr hpr
    obtain ⟨a, ha, hfa⟩ := List.mem_filterMap.mp hpr
    cases hlk : List.lookup a.1 m with
    | none => simp [restoreFilter, hlk] at hfa
    | some entry =>
      simp only [hlk] at hfa
      by_cases hacc : a.2 = PatchStatus.Accepted
      · rw [hacc] at hfa
        have hfa2 : (entry.patch, PatchStatus.Accepted) = pr := by
          simpa using hfa
        rw [← hfa2]
      · exfalso
        simp [hacc] at hfa
  · intro u h
    exact replayList_trace d _ m u h

/-- C6 witness: missing file and an empty content file. -/
theorem restore_patch_status_spec_witness :
    restore_patch_status dOkDrv pleUuid false .missing mC2 =
      ⟨.ok (), mC2, []⟩ ∧
    (restore_patch_status dOkDrv pleUuid false (.content []) mC2).trace.filter
        Event.isTransition = [] :=
  ⟨(restore_patch_status_spec dOkDrv pleUuid false [] mC2
      (fun a b c hab hbc => by
        simp only [pleUuid, decide_eq_true_eq] at *
        exact le_trans hab hbc)
      (fun a b => by
        simp only [pleUuid, Bool.or_eq_true, decide_eq_true_eq]
        exact le_total _ _)).1,
   ((restore_patch_status_spec dOkDrv pleUuid false [] mC2
      (fun a b c hab hbc => by
        simp only [pleUuid, decide_eq_true_eq] at *
        exact le_trans hab hbc)
      (fun a b => by
        simp only [pleUuid, Bool.or_eq_true, decide_eq_true_eq]
        exact le_total _ _)).2.2.2.2 ()
      (by simp [restore_patch_status, restoreFilter, List.mergeSort_nil,
        replayList])).trans
    (by simp [restoreFilter, List.mergeSort_nil])⟩

theorem txRollback_trace (d : Driver) :
    ∀ (fs : List (Patch × PatchStatus)) (m : EntryMap) (u : Unit),
      (txRollback d fs m).res = .ok u →
      (txRollback d fs m).trace.filter Event.isTransition =
        fs.map (fun pr => Event.transition pr.1.uuid pr.2) := by
  intro fs
  induction fs with
  | nil =>
    intro m u h
    rfl
  | cons pr rest ih =>
    intro m u h
    simp only [txRollback] at h ⊢
    cases hr : (do_status_transition d m pr.1 pr.2).res with
    | error e =>
      rw [show pr = (pr.1, pr.2) from rfl] at h
      simp only [hr] at h
      cases h
    | ok v =>
      rw [show pr = (pr.1, pr.2) from rfl] at h ⊢
      simp only [hr] at h ⊢
      rw [List.filter_append, do_status_transition_trace_filter,
        List.map_cons]
      rw [ih _ u h]
      rfl

/-- C1 counterexample: a transaction whose action succeeds on one patch and
then fails, with a rollback that itself fails: `invoke` returns the rollback
error (wrapped in the rollback context) instead of the original action
failure `boom` with the transaction context — the `?` operator on
`self.rollback()` masks the root cause. -/
theorem txInvoke_counterexample :
    (txInvoke "T" dBadDeactive actC1 [pBadC1, pGoodC1] mC1).res =
      .error ["Transaction T rollback failed",
        "Driver: Failed to deactive patch", "bad-deactive"] ∧
    (["Transaction T rollback failed",
      "Driver: Failed to deactive patch", "bad-deactive"] : Err) ≠
      ["Transaction T failed", "boom"] :=
  ⟨rfl, by decide⟩

/-- C1 (amended): when the action fails after at least one patch finished,
the finished patches are rolled back in reverse order of execution (the
`finish_list` stack), each through `do_status_transition(patch, old_status)`;
when every rollback transition succeeds the original action error is
returned with the transaction context, but when the rollback fails the
rollback error (with the rollback context) is returned instead, masking the
original failure. -/
theorem txInvoke_rollback_spec :
    ∀ (name : String) (d : Driver) (act : TxAction) (matched : List Patch)
      (m : EntryMap) (e : Err),
      (txStart d act matched m).res = .error e →
      (txStart d act matched m).finish ≠ [] →
      ((∀ u : Unit,
        (txRollback d (txStart d act matched m).finish
            (txStart d act matched m).state).res = .ok u →
        ((txInvoke name d act matched m).res =
          .error (("Transaction " ++ name ++ " failed") :: e) ∧
        (txRollback d (txStart d act matched m).finish
            (txStart d act matched m).state).trace.filter
            Event.isTransition =
          (txStart d act matched m).finish.map
            (fun pr => Event.transition pr.1.uuid pr.2))) ∧
      (∀ e2 : Err,
        (txRollback d (txStart d act matched m).finish
            (txStart d act matched m).state).res = .error e2 →
        (txInvoke name d act matched m).res =
          .error (("Transaction " ++ name ++ " rollback failed") :: e2))) := by
  intro name d act matched m e hs hne
  have hemp : ¬ ((txStart d act matched m).finish.isEmpty = true) := by
    simpa [List.isEmpty_iff] using hne
  constructor
  · intro u hrb
    refine ⟨?_, txRollback_trace d _ _ u hrb⟩
    unfold txInvoke
    simp only [hs]
    rw [if_neg hemp]
    simp only [hrb]
  · intro e2 hrb
    unfold txInvoke
    simp only [hs]
    rw [if_neg hemp]
    simp only [hrb]

/-- C1 witness: the same failing transaction with a driver whose rollback
succeeds: the original error is returned with the transaction context and
the single finished patch is rolled back through `do_status_transition`. -/
theorem txInvoke_rollback_spec_witness :
    (txInvoke "T" dOkDrv actC1 [pBadC1, pGoodC1] mC1).res =
      .error ["Transaction T failed", "boom"] ∧
    (txRollback dOkDrv
        (txStart dOkDrv actC1 [pBadC1, pGoodC1] mC1).finish
        (txStart dOkDrv actC1 [pBadC1, pGoodC1] mC1).state).trace.filter
        Event.isTransition =
      (txStart dOkDrv actC1 [pBadC1, pGoodC1] mC1).finish.map
        (fun pr => Event.transition pr.1.uuid pr.2) :=
  ⟨((txInvoke_rollback_spec "T" dOkDrv actC1 [pBadC1, pGoodC1] mC1 ["boom"]
      rfl (by decide)).1 () rfl).1,
   ((txInvoke_rollback_spec "T" dOkDrv actC1 [pBadC1, pGoodC1] mC1 ["boom"]
      rfl (by decide)).1 () rfl).2⟩
